import Mathlib

/-!
Verification of the SQL safety-gate pipeline (SqlGuard / QueryExecutor /
repair orchestration) of the sprintscope repository.

Strings are modelled as `List Char`.  `validateSQL` below is a direct
translation of `validateSQL` in `src/lib/llm.ts`; `execute_query` models the
function of the same name in `src/lib/tools.ts` with the database round trip
abstracted as an explicit outcome value; `postPipeline` models the `POST`
route handler that orchestrates generate / execute / repair / explain.
-/

set_option maxRecDepth 10000

/-- Characters treated as whitespace, matching the JavaScript regex class
`\s` on ASCII input (space, tab, newline, vertical tab, form feed,
carriage return). -/
def isWsChar (c : Char) : Bool :=
  c = ' ' || c = '\t' || c = '\n' || c = '\x0b' || c = '\x0c' || c = '\r'

/-- Word characters of the JavaScript regex class `\w`: ASCII letters,
digits and underscore. -/
def wordChar (c : Char) : Bool :=
  c.isAlphanum || c = '_'

/-- Digit characters of the JavaScript regex class `\d`. -/
def isDigitChar (c : Char) : Bool :=
  c = '0' || c = '1' || c = '2' || c = '3' || c = '4' ||
  c = '5' || c = '6' || c = '7' || c = '8' || c = '9'

/-- Character list of a string literal. -/
def strL (s : String) : List Char := s.data

/-- JavaScript `String.prototype.trim`: drop leading and trailing
whitespace. -/
def jsTrim (l : List Char) : List Char :=
  ((l.dropWhile isWsChar).reverse.dropWhile isWsChar).reverse

/-- JavaScript `replace(/\s+/g, ' ')`: each maximal run of whitespace
becomes a single space.  The flag records whether the previous character
was whitespace (in which case further whitespace is dropped). -/
def collapseAux : Bool → List Char → List Char
  | _, [] => []
  | prevWs, c :: cs =>
    if isWsChar c then
      if prevWs then collapseAux true cs
      else ' ' :: collapseAux true cs
    else c :: collapseAux false cs

/-- The normalization step of `validateSQL`:
`sql.trim().replace(/\s+/g, ' ')`. -/
def normalizeSql (sql : List Char) : List Char :=
  collapseAux false (jsTrim sql)

/-- JavaScript `split(';')`. -/
def splitOnSemi : List Char → List (List Char)
  | [] => [[]]
  | c :: cs =>
    if c = ';' then [] :: splitOnSemi cs
    else
      match splitOnSemi cs with
      | [] => [[c]]
      | t :: ts => (c :: t) :: ts

/-- Case-insensitive match of `kw` against a prefix of `s`
(the `i` regex flag is modelled by comparing upper-cased characters). -/
def matchesCI : List Char → List Char → Bool
  | [], _ => true
  | _ :: _, [] => false
  | k :: ks, c :: cs => (k.toUpper = c.toUpper) && matchesCI ks cs

/-- After a word-boundary match of `kw` at the head of `s`, the character
following the matched region must not be a word character (regex `\b`
after the keyword). -/
def boundaryAfter (kw s : List Char) : Bool :=
  match s.drop kw.length with
  | [] => true
  | c :: _ => !wordChar c

/-- Scan `s` for a word-boundary, case-insensitive occurrence of `kw`.
`prev` records whether the character before the current position is a word
character (regex `\b` before the keyword). -/
def scanWord (kw : List Char) : Bool → List Char → Bool
  | _, [] => false
  | prev, c :: cs =>
    (!prev && matchesCI kw (c :: cs) && boundaryAfter kw (c :: cs)) ||
      scanWord kw (wordChar c) cs

/-- Model of `new RegExp(`\\b${keyword}\\b`, 'i').test(s)` for a keyword
made of word characters. -/
def containsWordCI (kw s : List Char) : Bool :=
  scanWord kw false s

/-- The fixed forbidden-keyword list of `validateSQL`. -/
def forbiddenKeywords : List (List Char) :=
  [strL "INSERT", strL "UPDATE", strL "DELETE", strL "DROP", strL "ALTER",
   strL "TRUNCATE", strL "CREATE", strL "GRANT", strL "REVOKE"]

/-- The first forbidden keyword (in list order) with a word-boundary
occurrence in `s`; models the keyword loop of `validateSQL`. -/
def firstForbidden (s : List Char) : Option (List Char) :=
  forbiddenKeywords.find? fun kw => containsWordCI kw s

/-- Model of `upperSql.trim().startsWith('SELECT')` where
`upperSql = normalizedSql.toUpperCase()`. -/
def startsWithSelect (normalizedSql : List Char) : Bool :=
  (strL "SELECT").isPrefixOf (jsTrim (normalizedSql.map Char.toUpper))

/-- Case-insensitive literal keyword match returning the remainder of the
input on success. -/
def matchKwCI : List Char → List Char → Option (List Char)
  | [], s => some s
  | _ :: _, [] => none
  | k :: ks, c :: cs => if k.toUpper = c.toUpper then matchKwCI ks cs else none

/-- One attempted match of the table regex
`/FROM\s+(\w+)|JOIN\s+(\w+)/gi` at the head of `s`: keyword, then one or
more whitespace characters, then the captured `\w+` identifier.  Returns
the captured identifier and the remaining input after the match. -/
def matchTableRef (s : List Char) : Option (List Char × List Char) :=
  let tryKw : List Char → Option (List Char × List Char) := fun kw =>
    match matchKwCI kw s with
    | none => none
    | some r1 =>
      if (r1.takeWhile isWsChar).isEmpty then none
      else
        let r2 := r1.dropWhile isWsChar
        let w := r2.takeWhile wordChar
        if w.isEmpty then none
        else some (w, r2.dropWhile wordChar)
  match tryKw (strL "FROM") with
  | some r => some r
  | none => tryKw (strL "JOIN")

/-- Fuel-driven scan of the whole input with `matchTableRef`, advancing
past each match (as `matchAll` does) and by one character otherwise.  The
fuel is always instantiated with the input length, which suffices because
every step consumes at least one character. -/
def scanTablesAux : Nat → List Char → List (List Char)
  | 0, _ => []
  | _, [] => []
  | fuel + 1, c :: cs =>
    match matchTableRef (c :: cs) with
    | some (tbl, rest) => tbl :: scanTablesAux fuel rest
    | none => scanTablesAux fuel cs

/-- All identifiers captured by the table regex over the input. -/
def scanTables (s : List Char) : List (List Char) :=
  scanTablesAux s.length s

/-- Deduplication keeping first occurrences in order (a JavaScript `Set`
built by successive `add` calls, iterated in insertion order). -/
def dedupFirstAux (seen : List (List Char)) : List (List Char) → List (List Char)
  | [] => []
  | x :: xs =>
    if seen.contains x then dedupFirstAux seen xs
    else x :: dedupFirstAux (seen ++ [x]) xs

/-- The set of referenced tables: captured identifiers, lower-cased, first
occurrences kept in order. -/
def referencedTables (s : List Char) : List (List Char) :=
  dedupFirstAux [] ((scanTables s).map (List.map Char.toLower))

/-- The first referenced table missing from the lower-cased allow-list;
models the rejection loop of the table check. -/
def firstDisallowedTable (s : List Char) (allowedTables : List (List Char)) :
    Option (List Char) :=
  let allowedLower := allowedTables.map (List.map Char.toLower)
  (referencedTables s).find? fun t => !allowedLower.contains t

/-- Decimal digit character for a value below ten. -/
def digitChar : Nat → Char
  | 0 => '0' | 1 => '1' | 2 => '2' | 3 => '3' | 4 => '4'
  | 5 => '5' | 6 => '6' | 7 => '7' | 8 => '8' | _ => '9'

/-- Fuel-driven decimal rendering of a natural number (most significant
digit first); fuel `n + 1` always suffices. -/
def natDigitsAux : Nat → Nat → List Char → List Char
  | 0, _, acc => acc
  | fuel + 1, n, acc =>
    if n < 10 then digitChar n :: acc
    else natDigitsAux fuel (n / 10) (digitChar (n % 10) :: acc)

/-- Decimal rendering of a natural number, as produced by the JavaScript
template `${n}`. -/
def natDigits (n : Nat) : List Char :=
  natDigitsAux (n + 1) n []

/-- Numeric value of a digit character. -/
def digitVal (c : Char) : Nat := c.toNat - 48

/-- JavaScript `parseInt(ds, 10)` on a non-empty all-digit string. -/
def parseDigits (ds : List Char) : Nat :=
  ds.foldl (fun a c => a * 10 + digitVal c) 0

/-- The `\s+(\d+)` part of the limit regex, applied to the input remaining
after the literal `LIMIT`: one or more whitespace characters, then the
captured digits; returns the digits and the input after them. -/
def limitTail (r1 : List Char) : Option (List Char × List Char) :=
  if (r1.takeWhile isWsChar).isEmpty then none
  else if ((r1.dropWhile isWsChar).takeWhile isDigitChar).isEmpty then none
  else some ((r1.dropWhile isWsChar).takeWhile isDigitChar,
    (r1.dropWhile isWsChar).dropWhile isDigitChar)

/-- One attempted match of the limit regex `/LIMIT\s+(\d+)/i` at the head
of `s`: the literal `LIMIT` (case-insensitive), one or more whitespace
characters, then the captured digits.  Returns the digits and the
remaining input after them. -/
def matchLimitAt (s : List Char) : Option (List Char × List Char) :=
  match matchKwCI (strL "LIMIT") s with
  | none => none
  | some r1 => limitTail r1

/-- First match of the limit regex over the whole input, returned as the
text before the match, the captured digits and the text after the match. -/
def findLimit : List Char → Option (List Char × List Char × List Char)
  | [] => none
  | c :: cs =>
    match matchLimitAt (c :: cs) with
    | some (ds, rest) => some ([], ds, rest)
    | none =>
      match findLimit cs with
      | none => none
      | some (p, ds, rest) => some (c :: p, ds, rest)

/-- Step 4 of `validateSQL`: append `LIMIT defaultLimit` when no limit
clause matches, cap the first matched clause at `maxLimit` otherwise. -/
def enforceLimit (normalizedSql : List Char) (defaultLimit maxLimit : Nat) :
    List Char :=
  match findLimit normalizedSql with
  | none => normalizedSql ++ strL " LIMIT " ++ natDigits defaultLimit
  | some (pre, ds, rest) =>
    if maxLimit < parseDigits ds then
      pre ++ strL "LIMIT " ++ natDigits maxLimit ++ rest
    else normalizedSql

/-- Result type of `validateSQL` (`SQLValidationResult` in the source). -/
structure SQLValidationResult where
  isValid : Bool
  error : Option (List Char) := none
  sanitizedSql : Option (List Char) := none
deriving DecidableEq

/-- Configuration of `validateSQL` (`SQLValidationConfig` in the source);
all fields are optional and defaulted inside `validateSQL`, mirroring the
destructuring defaults of the source. -/
structure SQLValidationConfig where
  defaultLimit? : Option Nat := none
  maxLimit? : Option Nat := none
  allowedTables? : Option (List (List Char)) := none
  readOnly? : Option Bool := none
deriving DecidableEq

/-- Error message of the multiple-statement rejection. -/
def multiStatementError : List Char :=
  strL "Multiple statements detected. Only single-statement queries are allowed."

/-- Error message of the forbidden-keyword rejection. -/
def forbiddenKeywordError (kw : List Char) : List Char :=
  strL "Forbidden keyword detected: " ++ kw ++
    strL ". Only SELECT queries are allowed in read-only mode."

/-- Error message of the non-SELECT rejection. -/
def onlySelectError : List Char :=
  strL "Only SELECT statements are allowed in read-only mode."

/-- JavaScript `Array.prototype.join(', ')`. -/
def joinComma : List (List Char) → List Char
  | [] => []
  | [x] => x
  | x :: y :: xs => x ++ strL ", " ++ joinComma (y :: xs)

/-- Error message of the table allow-list rejection. -/
def tableNotAllowedError (t : List Char) (allowedTables : List (List Char)) :
    List Char :=
  strL "Table \"" ++ t ++ strL "\" is not in the allowed list. Allowed tables: " ++
    joinComma allowedTables

/-- The non-empty statement fragments of the single-statement check:
`normalizedSql.split(';').filter(s => s.trim().length > 0)`. -/
def statementsOf (normalizedSql : List Char) : List (List Char) :=
  (splitOnSemi normalizedSql).filter fun s => 0 < (jsTrim s).length

/-- Translation of `validateSQL` from `src/lib/llm.ts`: normalization,
single-statement check, read-only keyword and SELECT checks, table
allow-list check, LIMIT enforcement. -/
def validateSQL (sql : List Char) (config : SQLValidationConfig) :
    SQLValidationResult :=
  let defaultLimit := config.defaultLimit?.getD 50
  let maxLimit := config.maxLimit?.getD 500
  let allowedTables := config.allowedTables?.getD []
  let readOnly := config.readOnly?.getD true
  let normalizedSql := normalizeSql sql
  if 1 < (statementsOf normalizedSql).length then
    { isValid := false, error := some multiStatementError }
  else
    match if readOnly then firstForbidden normalizedSql else none with
    | some kw => { isValid := false, error := some (forbiddenKeywordError kw) }
    | none =>
      if readOnly && !startsWithSelect normalizedSql then
        { isValid := false, error := some onlySelectError }
      else
        match if allowedTables.isEmpty then none
              else firstDisallowedTable normalizedSql allowedTables with
        | some t =>
          { isValid := false, error := some (tableNotAllowedError t allowedTables) }
        | none =>
          { isValid := true,
            sanitizedSql := some (enforceLimit normalizedSql defaultLimit maxLimit) }

/-- A result row, modelled as a JSON object: key-value pairs. -/
abbrev Row := List (List Char × List Char)

/-- Result type of `execute_query` (`QueryResult` in `src/lib/tools.ts`). -/
structure QueryResult where
  rows : List Row
  rowCount : Nat
  runtimeMs : Nat
  error : Option (List Char) := none
deriving DecidableEq

/-- Outcome of the database round trip performed by `execute_query`,
abstracting the Supabase RPC call, the REST fallback, and a thrown
exception.  `rpcErrorRestFail` carries the error message surfaced by the
code (the driver message, or the code's fallback text). -/
inductive DbOutcome where
  | rpcOk (rows : List Row)
  | rpcErrorRestOk (rows : List Row)
  | rpcErrorRestFail (message : List Char)
  | thrown (message : List Char)
deriving DecidableEq

/-- The validation configuration hard-coded inside `execute_query`:
`{defaultLimit: 50, maxLimit: 500, readOnly: true}`. -/
def execValidationConfig : SQLValidationConfig :=
  { defaultLimit? := some 50, maxLimit? := some 500, readOnly? := some true }

/-- The database-interaction part of `execute_query`, with the round trip
abstracted by `db` and the measured wall-clock time by `runtimeMs`. -/
def runDb (db : DbOutcome) (runtimeMs : Nat) : QueryResult :=
  match db with
  | .rpcOk rows => { rows := rows, rowCount := rows.length, runtimeMs := runtimeMs }
  | .rpcErrorRestOk rows =>
    { rows := rows, rowCount := rows.length, runtimeMs := runtimeMs }
  | .rpcErrorRestFail message =>
    { rows := [], rowCount := 0, runtimeMs := runtimeMs, error := some message }
  | .thrown message =>
    { rows := [], rowCount := 0, runtimeMs := runtimeMs, error := some message }

/-- Translation of `execute_query` from `src/lib/tools.ts`: it first
re-validates its input with `validateSQL` and returns the validation error
without touching the database when validation fails; otherwise it performs
the database call. -/
def execute_query (sql : List Char) (db : DbOutcome) (runtimeMs : Nat) :
    QueryResult :=
  let validation := validateSQL sql execValidationConfig
  if validation.isValid then runDb db runtimeMs
  else
    { rows := [], rowCount := 0, runtimeMs := runtimeMs, error := validation.error }

/-- Result of the SQL generator as consumed by the route handler. -/
structure GenSQLResult where
  sql? : Option (List Char)
  clarification? : Option (List Char)
  isAmbiguous : Bool
deriving DecidableEq

/-- The tool invocations recorded by the route handler. -/
inductive ToolCall where
  | get_schema
  | generate_sql
  | execute_query
  | repair_sql
  | explain_results
deriving DecidableEq

/-- JSON envelope returned by the route handler; fields absent from a
branch's response object are `none`. -/
structure ChatResponse where
  response : List Char
  clarification? : Option (List Char) := none
  sql? : Option (List Char) := none
  results? : Option (List Row) := none
  rowCount? : Option Nat := none
  runtimeMs? : Option Nat := none
  error? : Option (List Char) := none
  toolCalls : List ToolCall
deriving DecidableEq

/-- Fallback clarification text of the route handler. -/
def defaultClarification : List Char :=
  strL "I need more information to answer your question. Could you please clarify?"

/-- Translation of the `POST` route handler's tool-orchestration flow:
ambiguity short-circuit, first execution, at most one repair followed by
exactly one re-execution, then explanation.  The generator result, the two
execution results, the repaired SQL and the explanation text are supplied
as explicit values (the code obtains them from awaited tool calls). -/
def postPipeline (gen : GenSQLResult) (exec1 : QueryResult)
    (repairedSql : List Char) (exec2 : QueryResult)
    (explanation : List Char) : ChatResponse :=
  if gen.isAmbiguous || gen.sql?.isNone then
    { response := gen.clarification?.getD defaultClarification,
      clarification? := gen.clarification?,
      sql? := none,
      toolCalls := [.get_schema, .generate_sql] }
  else
    match exec1.error with
    | some _ =>
      match exec2.error with
      | some e2 =>
        { response := strL "I encountered an error executing the query: " ++ e2 ++
            strL ". Please try rephrasing your question.",
          sql? := some repairedSql,
          error? := some e2,
          toolCalls := [.get_schema, .generate_sql, .execute_query, .repair_sql,
            .execute_query] }
      | none =>
        { response := explanation,
          sql? := some repairedSql,
          results? := some exec2.rows,
          rowCount? := some exec2.rowCount,
          runtimeMs? := some exec2.runtimeMs,
          error? := exec2.error,
          toolCalls := [.get_schema, .generate_sql, .execute_query, .repair_sql,
            .execute_query, .explain_results] }
    | none =>
      { response := explanation,
        sql? := gen.sql?,
        results? := some exec1.rows,
        rowCount? := some exec1.rowCount,
        runtimeMs? := some exec1.runtimeMs,
        error? := exec1.error,
        toolCalls := [.get_schema, .generate_sql, .execute_query, .explain_results] }

/-- Uppercase ASCII letter test; every character of every forbidden
keyword satisfies it. -/
def isUpperCh (c : Char) : Bool :=
  'A' ≤ c && c ≤ 'Z'

/-- Outcome of matching keyword `kw` case-insensitively against the whole
of `x`: `none` on a character mismatch inside `x`; `Sum.inl kw'` when `x`
is exhausted with `kw'` still to match; `Sum.inr rest` when the keyword is
fully matched with `rest` of `x` remaining. -/
def kwRem : List Char → List Char → Option (List Char ⊕ List Char)
  | kw, [] => some (Sum.inl kw)
  | [], s => some (Sum.inr s)
  | k :: ks, c :: cs => if k.toUpper = c.toUpper then kwRem ks cs else none

/-- C1: every input whose normalized form splits on `;` into more than one
non-empty, non-whitespace fragment is rejected by `validateSQL` with the
multiple-statement error (and with no other error), for every
configuration. -/
theorem validateSQL_multi_statement (sql : List Char) (config : SQLValidationConfig)
    (h : 1 < (statementsOf (normalizeSql sql)).length) :
    validateSQL sql config =
      { isValid := false, error := some multiStatementError, sanitizedSql := none } := by
  unfold validateSQL
  simp [h]

/-- Witness for C1: `"SELECT 1; DROP TABLE x;"` satisfies the
multi-fragment hypothesis and is rejected with the multi-statement error,
not a forbidden-keyword error, despite containing `DROP`. -/
theorem validateSQL_multi_statement_witness :
    1 < (statementsOf (normalizeSql (strL "SELECT 1; DROP TABLE x;"))).length ∧
      validateSQL (strL "SELECT 1; DROP TABLE x;") {} =
        { isValid := false, error := some multiStatementError, sanitizedSql := none } :=
  ⟨by decide, validateSQL_multi_statement _ _ (by decide)⟩

/-- C7: every result of `validateSQL` is exactly one of a rejection
(`isValid = false`, `error` present, `sanitizedSql` absent) or an
acceptance (`isValid = true`, `sanitizedSql` present, `error` absent). -/
theorem validateSQL_result_exclusive (sql : List Char) (config : SQLValidationConfig) :
    ((validateSQL sql config).isValid = false ∧
        (validateSQL sql config).error.isSome = true ∧
        (validateSQL sql config).sanitizedSql = none) ∨
      ((validateSQL sql config).isValid = true ∧
        (validateSQL sql config).sanitizedSql.isSome = true ∧
        (validateSQL sql config).error = none) := by
  simp only [validateSQL]
  split
  · simp
  · split
    · simp
    · split
      · simp
      · split
        · simp
        · simp

/-- C10: `validateSQL` is total over its modelled inputs — it returns a
result for every string and every configuration (the embedding is a pure
function, so equal arguments give equal results) — and on the edge inputs
of the empty string with an all-defaults configuration, and the empty
string with `readOnly = false`, it returns the concrete results below. -/
theorem validateSQL_total_pure :
    (∀ (sql : List Char) (config : SQLValidationConfig),
        ∃ r : SQLValidationResult, validateSQL sql config = r ∧
          (r.isValid = true ∨ r.isValid = false)) ∧
      validateSQL [] {} =
        { isValid := false, error := some onlySelectError, sanitizedSql := none } ∧
      validateSQL [] { readOnly? := some false } =
        { isValid := true, error := none, sanitizedSql := some (strL " LIMIT 50") } := by
  refine ⟨fun sql config => ⟨validateSQL sql config, rfl, ?_⟩, by decide, by decide⟩
  cases (validateSQL sql config).isValid
  · right; rfl
  · left; rfl

/-- C5 (amended): `execute_query` re-validates its input with
`validateSQL` under `{defaultLimit: 50, maxLimit: 500, readOnly: true}`;
when validation fails it returns the validation error with no rows and
without a database call, and only when validation succeeds does its result
come from the database interaction. -/
theorem execute_query_revalidates (sql : List Char) (db : DbOutcome) (t : Nat) :
    ((validateSQL sql execValidationConfig).isValid = false →
        execute_query sql db t =
          { rows := [], rowCount := 0, runtimeMs := t,
            error := (validateSQL sql execValidationConfig).error }) ∧
      ((validateSQL sql execValidationConfig).isValid = true →
        execute_query sql db t = runDb db t) := by
  constructor
  · intro h
    unfold execute_query
    simp [h]
  · intro h
    unfold execute_query
    simp [h]

/-- Witness for C5: on `"DELETE FROM issues"` the re-validation inside
`execute_query` fails and its error is returned. -/
theorem execute_query_revalidates_witness :
    (validateSQL (strL "DELETE FROM issues") execValidationConfig).isValid = false ∧
      execute_query (strL "DELETE FROM issues") (DbOutcome.rpcOk []) 3 =
        { rows := [], rowCount := 0, runtimeMs := 3,
          error := (validateSQL (strL "DELETE FROM issues") execValidationConfig).error } :=
  ⟨by decide, (execute_query_revalidates _ _ _).1 (by decide)⟩

/-- Counterexample for C5: `execute_query` itself produces a
policy-violation (forbidden-keyword) error on `"DROP TABLE issues"` even
though the database outcome would have returned a row, contradicting the
claim that no policy-violation error is ever produced by the executor. -/
theorem execute_query_revalidates_cex :
    execute_query (strL "DROP TABLE issues")
        (DbOutcome.rpcOk [[(strL "id", strL "1")]]) 7 =
      { rows := [], rowCount := 0, runtimeMs := 7,
        error := some (strL "Forbidden keyword detected: DROP. Only SELECT queries are allowed in read-only mode.") } := by
  decide

/-- C6 (amended): in every `execute_query` result, a present error implies
empty rows and a zero row count, and an absent error implies
`rowCount = rows.length`. -/
theorem execute_query_error_invariant (sql : List Char) (db : DbOutcome) (t : Nat) :
    ((execute_query sql db t).error.isSome = true →
        (execute_query sql db t).rows = [] ∧ (execute_query sql db t).rowCount = 0) ∧
      ((execute_query sql db t).error = none →
        (execute_query sql db t).rowCount = (execute_query sql db t).rows.length) := by
  simp only [execute_query, runDb]
  split
  · cases db <;> simp
  · simp

/-- Witness for C6: a failing database outcome gives empty rows and a zero
row count. -/
theorem execute_query_error_invariant_witness :
    (execute_query (strL "SELECT * FROM issues")
        (DbOutcome.rpcErrorRestFail (strL "boom")) 2).rows = [] ∧
      (execute_query (strL "SELECT * FROM issues")
        (DbOutcome.rpcErrorRestFail (strL "boom")) 2).rowCount = 0 :=
  (execute_query_error_invariant _ _ _).1 (by decide)

/-- Counterexample for C6: a successful query returning zero rows has
empty rows and `rowCount = 0` with no error present, so "error present if
and only if rows empty and rowCount = 0" fails in the only-if direction. -/
theorem execute_query_error_invariant_cex :
    (execute_query (strL "SELECT * FROM issues") (DbOutcome.rpcOk []) 4).error = none ∧
      (execute_query (strL "SELECT * FROM issues") (DbOutcome.rpcOk []) 4).rows = [] ∧
      (execute_query (strL "SELECT * FROM issues") (DbOutcome.rpcOk []) 4).rowCount = 0 := by
  decide

/-- C9: when generation succeeds and the first execution errors, the route
handler repairs once, re-executes once, and a second error is terminal:
the response surfaces the second error and the recorded tool calls contain
`repair_sql` exactly once and `execute_query` exactly twice. -/
theorem postPipeline_repair_once (gen : GenSQLResult) (exec1 : QueryResult)
    (repairedSql : List Char) (exec2 : QueryResult) (explanation : List Char)
    (q e1 e2 : List Char)
    (hq : gen.sql? = some q) (ha : gen.isAmbiguous = false)
    (h1 : exec1.error = some e1) (h2 : exec2.error = some e2) :
    postPipeline gen exec1 repairedSql exec2 explanation =
      { response := strL "I encountered an error executing the query: " ++ e2 ++
          strL ". Please try rephrasing your question.",
        sql? := some repairedSql,
        error? := some e2,
        toolCalls := [.get_schema, .generate_sql, .execute_query, .repair_sql,
          .execute_query] } ∧
      ([ToolCall.get_schema, .generate_sql, .execute_query, .repair_sql,
          .execute_query].count ToolCall.repair_sql = 1 ∧
        [ToolCall.get_schema, .generate_sql, .execute_query, .repair_sql,
          .execute_query].count ToolCall.execute_query = 2) := by
  refine ⟨?_, by decide, by decide⟩
  unfold postPipeline
  simp [hq, ha, h1, h2]

/-- Witness for C9: a concrete ambiguity-free generation with two failing
executions terminates with the second error and the five recorded tool
calls. -/
theorem postPipeline_repair_once_witness :
    postPipeline
        { sql? := some (strL "SELECT wrong FROM issues"), clarification? := none,
          isAmbiguous := false }
        { rows := [], rowCount := 0, runtimeMs := 5, error := some (strL "column wrong does not exist") }
        (strL "SELECT title FROM issues")
        { rows := [], rowCount := 0, runtimeMs := 6, error := some (strL "column title does not exist") }
        (strL "unused explanation") =
      { response := strL "I encountered an error executing the query: " ++
          strL "column title does not exist" ++
          strL ". Please try rephrasing your question.",
        sql? := some (strL "SELECT title FROM issues"),
        error? := some (strL "column title does not exist"),
        toolCalls := [.get_schema, .generate_sql, .execute_query, .repair_sql,
          .execute_query] } :=
  (postPipeline_repair_once _ _ _ _ _ _ _ _ rfl rfl rfl rfl).1

/-- Counterexample for C2: with `readOnly = true` and a non-empty table
allow-list, the single-statement query `"SELECT * FROM users"` is rejected
although it contains no standalone forbidden keyword and starts with
SELECT, so rejection is not equivalent to the keyword/SELECT condition as
claimed. -/
theorem validateSQL_readonly_keyword_cex :
    (validateSQL (strL "SELECT * FROM users")
        { readOnly? := some true, allowedTables? := some [strL "issues"] }).isValid = false ∧
      firstForbidden (normalizeSql (strL "SELECT * FROM users")) = none ∧
      startsWithSelect (normalizeSql (strL "SELECT * FROM users")) = true ∧
      (statementsOf (normalizeSql (strL "SELECT * FROM users"))).length ≤ 1 := by
  decide

/-- C2 (amended): with `readOnly = true` and an empty table allow-list, a
single-statement input is rejected exactly when it has a word-boundary,
case-insensitive occurrence of a forbidden keyword or does not start with
SELECT; and when the keyword loop finds its first keyword `kw`, the result
is the forbidden-keyword error naming `kw`. -/
theorem validateSQL_readonly_keyword_iff (sql : List Char) (config : SQLValidationConfig)
    (hro : config.readOnly?.getD true = true)
    (htab : config.allowedTables?.getD [] = [])
    (hsingle : (statementsOf (normalizeSql sql)).length ≤ 1) :
    ((validateSQL sql config).isValid = false ↔
        (firstForbidden (normalizeSql sql)).isSome = true ∨
          startsWithSelect (normalizeSql sql) = false) ∧
      (∀ kw, firstForbidden (normalizeSql sql) = some kw →
        validateSQL sql config =
          { isValid := false, error := some (forbiddenKeywordError kw),
            sanitizedSql := none }) := by
  have hns : ¬ 1 < (statementsOf (normalizeSql sql)).length := by omega
  simp only [validateSQL, hro, htab, hns, if_false, if_true, List.isEmpty_nil,
    Bool.true_and, ite_true, ite_false]
  cases hfk : firstForbidden (normalizeSql sql) with
  | some kw =>
    simp only [hfk]
    constructor
    · simp
    · intro kw' hk
      cases hk
      rfl
  | none =>
    simp only [hfk]
    by_cases hs : startsWithSelect (normalizeSql sql) = true
    · simp [hs]
    · simp [hs]

/-- Witness for C2: `"DELETE FROM issues"` is rejected with exactly the
claimed forbidden-keyword error text, while `"SELECT created_at, createdBy
FROM issues"`, which contains CREATE only as a proper substring of longer
identifiers, is accepted. -/
theorem validateSQL_readonly_keyword_iff_witness :
    validateSQL (strL "DELETE FROM issues") {} =
      { isValid := false,
        error := some (strL "Forbidden keyword detected: DELETE. Only SELECT queries are allowed in read-only mode."),
        sanitizedSql := none } ∧
      (validateSQL (strL "SELECT created_at, createdBy FROM issues") {}).isValid = true := by
  constructor
  · have h := (validateSQL_readonly_keyword_iff (strL "DELETE FROM issues") {}
      (by decide) (by decide) (by decide)).2 (strL "DELETE") (by decide)
    exact h
  · have h := (validateSQL_readonly_keyword_iff
      (strL "SELECT created_at, createdBy FROM issues") {}
      (by decide) (by decide) (by decide)).1
    rcases Bool.eq_false_or_eq_true
      (validateSQL (strL "SELECT created_at, createdBy FROM issues") {}).isValid with hb | hb
    · exact hb
    · exact absurd (h.mp hb) (by decide)

/-- Every accepted input reaches the LIMIT-enforcement stage, and the
sanitized output is exactly its result. -/
theorem validateSQL_valid_sanitized (sql : List Char) (config : SQLValidationConfig)
    (hv : (validateSQL sql config).isValid = true) :
    (validateSQL sql config).sanitizedSql =
      some (enforceLimit (normalizeSql sql) (config.defaultLimit?.getD 50)
        (config.maxLimit?.getD 500)) := by
  by_cases h1 : 1 < (statementsOf (normalizeSql sql)).length
  · simp only [validateSQL, h1, if_true] at hv
    simp at hv
  · cases hk : (if config.readOnly?.getD true then firstForbidden (normalizeSql sql)
        else none) with
    | some kw =>
      simp only [validateSQL, h1, hk, if_false] at hv
      simp at hv
    | none =>
      by_cases h2 : (config.readOnly?.getD true &&
          !startsWithSelect (normalizeSql sql)) = true
      · simp only [validateSQL, h1, hk, h2, if_false, if_true] at hv
        simp at hv
      · cases ht : (if (config.allowedTables?.getD []).isEmpty then none
            else firstDisallowedTable (normalizeSql sql)
              (config.allowedTables?.getD [])) with
        | some t =>
          simp only [validateSQL, h1, hk, ht, if_false] at hv
          simp [h2] at hv
        | none =>
          simp only [validateSQL, h1, hk, ht, if_false]
          simp [h2]

/-- Counterexample for C3: `"SELECT 1 LIMIT 600 LIMIT 700"` contains the
clause `LIMIT 700` with `700 > maxLimit = 500` and is accepted, yet the
sanitized output still contains both `700` and the clause `LIMIT 700` —
only the first textual match (`LIMIT 600`) was capped — contradicting
"the returned sanitizedSql contains LIMIT maxLimit and never the original
value v". -/
theorem validateSQL_limit_cap_cex :
    List.IsInfix (strL "LIMIT 700") (strL "SELECT 1 LIMIT 600 LIMIT 700") ∧
      (validateSQL (strL "SELECT 1 LIMIT 600 LIMIT 700") {}).isValid = true ∧
      (validateSQL (strL "SELECT 1 LIMIT 600 LIMIT 700") {}).sanitizedSql =
        some (strL "SELECT 1 LIMIT 500 LIMIT 700") ∧
      List.IsInfix (strL "LIMIT 700") (strL "SELECT 1 LIMIT 500 LIMIT 700") ∧
      List.IsInfix (strL "700") (strL "SELECT 1 LIMIT 500 LIMIT 700") := by
  refine ⟨⟨strL "SELECT 1 LIMIT 600 ", [], by decide⟩, by decide, by decide,
    ⟨strL "SELECT 1 LIMIT 500 ", [], by decide⟩,
    ⟨strL "SELECT 1 LIMIT 500 LIMIT ", [], by decide⟩⟩

/-- C3 (amended): for every accepted input, considering the first textual
match of `LIMIT <integer>` (case-insensitive) in the normalized input,
with digits `ds`, text `pre` before the match and `rest` after it: when
the value exceeds `maxLimit` the matched clause is replaced by
`LIMIT maxLimit`, and otherwise the normalized input is returned
unchanged, preserving the clause exactly; no rejection occurs in either
case. -/
theorem validateSQL_limit_cap (sql : List Char) (config : SQLValidationConfig)
    (pre ds rest : List Char)
    (hfl : findLimit (normalizeSql sql) = some (pre, ds, rest))
    (hv : (validateSQL sql config).isValid = true) :
    (validateSQL sql config).sanitizedSql =
      some (if config.maxLimit?.getD 500 < parseDigits ds
            then pre ++ strL "LIMIT " ++ natDigits (config.maxLimit?.getD 500) ++ rest
            else normalizeSql sql) := by
  rw [validateSQL_valid_sanitized sql config hv]
  unfold enforceLimit
  rw [hfl]

/-- Witness for C3: `"SELECT * FROM issues LIMIT 10000"` has its limit
capped to 500, while `"SELECT * FROM issues LIMIT 10"` is preserved
exactly. -/
theorem validateSQL_limit_cap_witness :
    (validateSQL (strL "SELECT * FROM issues LIMIT 10000") {}).sanitizedSql =
      some (strL "SELECT * FROM issues LIMIT 500") ∧
      (validateSQL (strL "SELECT * FROM issues LIMIT 10") {}).sanitizedSql =
        some (strL "SELECT * FROM issues LIMIT 10") := by
  constructor
  · have h := validateSQL_limit_cap (strL "SELECT * FROM issues LIMIT 10000") {}
      (strL "SELECT * FROM issues ") (strL "10000") [] (by decide) (by decide)
    simpa using h
  · have h := validateSQL_limit_cap (strL "SELECT * FROM issues LIMIT 10") {}
      (strL "SELECT * FROM issues ") (strL "10") [] (by decide) (by decide)
    simpa using h

/-- C8: when the policy carries a non-empty allow-list and control reaches
the table check (single statement; read-only checks pass or read-only is
off), `validateSQL` rejects with the allow-list error naming the first
referenced table (identifier after FROM or JOIN, lower-cased) missing from
the lower-cased allow-list, and accepts when every referenced table is
allowed. -/
theorem validateSQL_allowlist (sql : List Char) (config : SQLValidationConfig)
    (ts : List (List Char))
    (htab : config.allowedTables?.getD [] = ts) (hne : ts ≠ [])
    (hsingle : (statementsOf (normalizeSql sql)).length ≤ 1)
    (hro : config.readOnly?.getD true = true →
      firstForbidden (normalizeSql sql) = none ∧
        startsWithSelect (normalizeSql sql) = true) :
    (∀ t, firstDisallowedTable (normalizeSql sql) ts = some t →
        validateSQL sql config =
          { isValid := false, error := some (tableNotAllowedError t ts),
            sanitizedSql := none }) ∧
      (firstDisallowedTable (normalizeSql sql) ts = none →
        (validateSQL sql config).isValid = true) := by
  have hns : ¬ 1 < (statementsOf (normalizeSql sql)).length := by omega
  have hemp : ts.isEmpty = false := by
    cases ts
    · exact absurd rfl hne
    · rfl
  cases hro2 : config.readOnly?.getD true with
  | true =>
    obtain ⟨hfk, hsel⟩ := hro hro2
    simp only [validateSQL, hro2, htab, hns, hfk, hsel, hemp, if_false, if_true,
      Bool.not_true, Bool.and_false, Bool.false_eq_true]
    constructor
    · intro t htd
      simp [htd]
    · intro htd
      simp [htd]
  | false =>
    simp only [validateSQL, hro2, htab, hns, hemp, if_false, if_true,
      Bool.false_and, Bool.false_eq_true]
    constructor
    · intro t htd
      simp [htd]
    · intro htd
      simp [htd]

/-- Witness for C8: with `allowedTables = {issues}`, a query joining
`users` is rejected with the claimed error text, and a query referencing
only `issues` passes. -/
theorem validateSQL_allowlist_witness :
    validateSQL (strL "SELECT * FROM issues JOIN users ON issues.assignee_id = users.id")
        { allowedTables? := some [strL "issues"] } =
      { isValid := false,
        error := some (strL "Table \"users\" is not in the allowed list. Allowed tables: issues"),
        sanitizedSql := none } ∧
      (validateSQL (strL "SELECT * FROM issues")
        { allowedTables? := some [strL "issues"] }).isValid = true := by
  constructor
  · have h := (validateSQL_allowlist
      (strL "SELECT * FROM issues JOIN users ON issues.assignee_id = users.id")
      { allowedTables? := some [strL "issues"] } [strL "issues"]
      (by decide) (by decide) (by decide)
      (fun _ => ⟨by decide, by decide⟩)).1 (strL "users") (by decide)
    exact h
  · exact (validateSQL_allowlist (strL "SELECT * FROM issues")
      { allowedTables? := some [strL "issues"] } [strL "issues"]
      (by decide) (by decide) (by decide)
      (fun _ => ⟨by decide, by decide⟩)).2 (by decide)

/-- A character of the last element of a list, via `getLast?`, is a member
of the list. -/
theorem mem_of_getLast?_eq (l : List Char) (c : Char) (h : l.getLast? = some c) :
    c ∈ l := by
  rw [← List.head?_reverse] at h
  have hm : c ∈ l.reverse := by
    cases hr : l.reverse with
    | nil => rw [hr] at h; exact absurd h (by simp)
    | cons x xs =>
      rw [hr] at h
      simp only [List.head?_cons, Option.some.injEq] at h
      rw [← h]
      exact List.mem_cons_self x xs
  exact List.mem_reverse.mp hm

/-- An uppercase ASCII letter is fixed by `Char.toUpper`. -/
theorem toUpper_of_isUpperCh (k : Char) (h : isUpperCh k = true) :
    k.toUpper = k := by
  simp only [isUpperCh, Bool.and_eq_true, decide_eq_true_eq] at h
  obtain ⟨h1, h2⟩ := h
  rw [Char.le_def] at h1 h2
  have h2n : k.toNat ≤ 90 := h2
  unfold Char.toUpper
  rw [if_neg]
  intro hc
  have := hc.1
  simp only [Char.toNat] at this h2n
  omega

/-- Digit characters are fixed by `Char.toUpper`. -/
theorem toUpper_of_isDigitChar (c : Char) (h : isDigitChar c = true) :
    c.toUpper = c := by
  simp only [isDigitChar, Bool.or_eq_true, decide_eq_true_eq] at h
  rcases h with (((((((((h | h) | h) | h) | h) | h) | h) | h) | h) | h) <;> subst h <;> decide

/-- An uppercase letter never case-insensitively matches a space. -/
theorem isUpperCh_ne_space_toUpper (k : Char) (h : isUpperCh k = true) :
    k.toUpper ≠ ' '.toUpper := by
  intro hc
  rw [toUpper_of_isUpperCh k h] at hc
  have : (' ').toUpper = ' ' := by decide
  rw [this] at hc
  subst hc
  exact absurd h (by decide)

/-- An uppercase letter never case-insensitively matches a digit. -/
theorem isUpperCh_ne_digit_toUpper (k c : Char) (hk : isUpperCh k = true)
    (hc : isDigitChar c = true) : k.toUpper ≠ c.toUpper := by
  intro he
  rw [toUpper_of_isUpperCh k hk, toUpper_of_isDigitChar c hc] at he
  subst he
  simp only [isDigitChar, Bool.or_eq_true, decide_eq_true_eq] at hc
  rcases hc with (((((((((h | h) | h) | h) | h) | h) | h) | h) | h) | h) <;> subst h <;>
    exact absurd hk (by decide)

/-- Digit characters are not whitespace. -/
theorem isDigitChar_not_ws (c : Char) (h : isDigitChar c = true) :
    isWsChar c = false := by
  simp only [isDigitChar, Bool.or_eq_true, decide_eq_true_eq] at h
  rcases h with (((((((((h | h) | h) | h) | h) | h) | h) | h) | h) | h) <;> subst h <;> decide

/-- Digit characters are not semicolons. -/
theorem isDigitChar_ne_semi (c : Char) (h : isDigitChar c = true) : c ≠ ';' := by
  simp only [isDigitChar, Bool.or_eq_true, decide_eq_true_eq] at h
  rcases h with (((((((((h | h) | h) | h) | h) | h) | h) | h) | h) | h) <;> subst h <;> decide

/-- Digit characters are not word-boundary breakers: they are word
characters. -/
theorem isDigitChar_wordChar (c : Char) (h : isDigitChar c = true) :
    wordChar c = true := by
  simp only [isDigitChar, Bool.or_eq_true, decide_eq_true_eq] at h
  rcases h with (((((((((h | h) | h) | h) | h) | h) | h) | h) | h) | h) <;> subst h <;> decide

/-- Unfolding lemma: collapsing a whitespace head after non-whitespace
emits one space. -/
theorem collapseAux_cons_ws_false (c : Char) (cs : List Char)
    (h : isWsChar c = true) :
    collapseAux false (c :: cs) = ' ' :: collapseAux true cs := by
  simp [collapseAux, h]

/-- Unfolding lemma: collapsing a whitespace head inside a whitespace run
drops it. -/
theorem collapseAux_cons_ws_true (c : Char) (cs : List Char)
    (h : isWsChar c = true) :
    collapseAux true (c :: cs) = collapseAux true cs := by
  simp [collapseAux, h]

/-- Unfolding lemma: a non-whitespace head is kept and resets the run
flag. -/
theorem collapseAux_cons_nonws (b : Bool) (c : Char) (cs : List Char)
    (h : isWsChar c = false) :
    collapseAux b (c :: cs) = c :: collapseAux false cs := by
  cases b <;> simp [collapseAux, h]

/-- A list without whitespace is fixed by whitespace collapsing. -/
theorem collapseAux_nonWs (l : List Char) (h : ∀ c ∈ l, isWsChar c = false)
    (b : Bool) : collapseAux b l = l := by
  induction l generalizing b with
  | nil => cases b <;> rfl
  | cons c cs ih =>
    rw [collapseAux_cons_nonws b c cs (h c (List.mem_cons_self c cs))]
    rw [ih (fun x hx => h x (List.mem_cons_of_mem c hx)) false]

/-- Whitespace collapsing is idempotent. -/
theorem collapseAux_idem (l : List Char) (b : Bool) :
    collapseAux b (collapseAux b l) = collapseAux b l := by
  induction l generalizing b with
  | nil => cases b <;> rfl
  | cons c cs ih =>
    by_cases hws : isWsChar c = true
    · cases b with
      | true =>
        rw [collapseAux_cons_ws_true c cs hws]
        exact ih true
      | false =>
        rw [collapseAux_cons_ws_false c cs hws]
        rw [collapseAux_cons_ws_false ' ' (collapseAux true cs) (by decide)]
        have := ih true
        rw [this]
    · have hws' : isWsChar c = false := by
        cases hc : isWsChar c
        · rfl
        · exact absurd hc hws
      rw [collapseAux_cons_nonws b c cs hws']
      rw [collapseAux_cons_nonws b c (collapseAux false cs) hws']
      rw [ih false]

/-- Dropping a satisfied-prefix from a list whose head fails the predicate
is the identity. -/
theorem dropWhile_eq_self_of_head (p : Char → Bool) (l : List Char)
    (h : ∀ c, l.head? = some c → p c = false) : l.dropWhile p = l := by
  cases l with
  | nil => rfl
  | cons c cs =>
    rw [List.dropWhile_cons, if_neg]
    rw [h c rfl]
    simp

/-- The head of a `dropWhile` result fails the predicate. -/
theorem head?_dropWhile (p : Char → Bool) (l : List Char) (c : Char)
    (h : (l.dropWhile p).head? = some c) : p c = false := by
  induction l with
  | nil => exact absurd h (by simp)
  | cons x xs ih =>
    rw [List.dropWhile_cons] at h
    by_cases hp : p x = true
    · rw [if_pos hp] at h
      exact ih h
    · rw [if_neg hp] at h
      simp only [List.head?_cons, Option.some.injEq] at h
      rw [← h]
      cases hx : p x
      · rfl
      · exact absurd hx hp

/-- A list with non-whitespace first and last characters is fixed by
`jsTrim`. -/
theorem jsTrim_eq_self (l : List Char)
    (hhead : ∀ c, l.head? = some c → isWsChar c = false)
    (hlast : ∀ c, l.getLast? = some c → isWsChar c = false) :
    jsTrim l = l := by
  unfold jsTrim
  rw [dropWhile_eq_self_of_head isWsChar l hhead]
  rw [dropWhile_eq_self_of_head isWsChar l.reverse
    (fun c hc => hlast c (by rwa [List.head?_reverse] at hc))]
  exact List.reverse_reverse l


/-- The last element of an append with a non-empty right part is the last
element of the right part. -/
theorem getLast?_append_right (t v : List Char) (hv : v ≠ []) :
    (t ++ v).getLast? = v.getLast? := by
  rw [List.getLast?_append]
  cases hg : v.getLast? with
  | none =>
    exfalso
    apply hv
    cases v with
    | nil => rfl
    | cons a as => simp [List.getLast?_eq_none_iff] at hg
  | some g => rfl

/-- The head of a trimmed string is not whitespace. -/
theorem jsTrim_head_nonWs (x : List Char) (d : Char)
    (hd : (jsTrim x).head? = some d) : isWsChar d = false := by
  unfold jsTrim at hd
  rw [List.head?_reverse] at hd
  obtain ⟨t, ht⟩ :=
    List.dropWhile_suffix (l := (x.dropWhile isWsChar).reverse) isWsChar
  cases hv : (x.dropWhile isWsChar).reverse.dropWhile isWsChar with
  | nil => rw [hv] at hd; simp at hd
  | cons e es =>
    rw [hv] at ht hd
    have hgl : (t ++ e :: es).getLast? = (e :: es).getLast? :=
      getLast?_append_right t (e :: es) (by simp)
    rw [ht, List.getLast?_reverse, hd] at hgl
    exact head?_dropWhile isWsChar x d hgl

/-- The last character of a trimmed string is not whitespace. -/
theorem jsTrim_getLast_nonWs (x : List Char) (d : Char)
    (hd : (jsTrim x).getLast? = some d) : isWsChar d = false := by
  unfold jsTrim at hd
  rw [List.getLast?_reverse] at hd
  exact head?_dropWhile isWsChar (x.dropWhile isWsChar).reverse d hd

/-- Collapsing preserves a non-whitespace head. -/
theorem collapseAux_head_nonWs (l : List Char)
    (hl : ∀ d, l.head? = some d → isWsChar d = false) (c : Char)
    (h : (collapseAux false l).head? = some c) : isWsChar c = false := by
  cases l with
  | nil => simp [collapseAux] at h
  | cons d ds =>
    have hd := hl d rfl
    rw [collapseAux_cons_nonws false d ds hd] at h
    simp only [List.head?_cons, Option.some.injEq] at h
    rw [← h]
    exact hd

/-- Collapsing a list with a non-whitespace last character is non-empty. -/
theorem collapseAux_ne_nil (l : List Char) (c : Char) (b : Bool)
    (hl : l.getLast? = some c) (hc : isWsChar c = false) :
    collapseAux b l ≠ [] := by
  induction l generalizing b with
  | nil => simp at hl
  | cons x xs ih =>
    cases xs with
    | nil =>
      simp only [List.getLast?_singleton, Option.some.injEq] at hl
      rw [collapseAux_cons_nonws b x [] (by rw [hl]; exact hc)]
      simp
    | cons y ys =>
      rw [List.getLast?_cons_cons] at hl
      by_cases hx : isWsChar x = true
      · cases b with
        | true =>
          rw [collapseAux_cons_ws_true x (y :: ys) hx]
          exact ih true hl
        | false =>
          rw [collapseAux_cons_ws_false x (y :: ys) hx]
          simp
      · rw [collapseAux_cons_nonws b x (y :: ys) (by cases h2 : isWsChar x; rfl; exact absurd h2 hx)]
        simp

/-- Collapsing preserves a non-whitespace last character. -/
theorem collapseAux_getLast_nonWs (l : List Char)
    (hlast : ∀ d, l.getLast? = some d → isWsChar d = false) (b : Bool)
    (c : Char) (h : (collapseAux b l).getLast? = some c) :
    isWsChar c = false := by
  induction l generalizing b with
  | nil => cases b <;> simp [collapseAux] at h
  | cons x xs ih =>
    cases xs with
    | nil =>
      have hx := hlast x (by simp)
      rw [collapseAux_cons_nonws b x [] hx] at h
      simp only [collapseAux, List.getLast?_singleton, Option.some.injEq] at h
      rw [← h]
      exact hx
    | cons y ys =>
      have hlast' : ∀ d, (y :: ys).getLast? = some d → isWsChar d = false := by
        intro d hd
        exact hlast d (by rw [List.getLast?_cons_cons]; exact hd)
      have hne : ∀ b', collapseAux b' (y :: ys) ≠ [] := by
        intro b'
        cases hg : (y :: ys).getLast? with
        | none => simp [List.getLast?_eq_none_iff] at hg
        | some g => exact collapseAux_ne_nil (y :: ys) g b' hg (hlast' g hg)
      by_cases hx : isWsChar x = true
      · cases b with
        | true =>
          rw [collapseAux_cons_ws_true x (y :: ys) hx] at h
          exact ih hlast' true h
        | false =>
          rw [collapseAux_cons_ws_false x (y :: ys) hx] at h
          rw [show (' ' :: collapseAux true (y :: ys)) = [' '] ++ collapseAux true (y :: ys) from rfl] at h
          rw [getLast?_append_right [' '] _ (hne true)] at h
          exact ih hlast' true h
      · have hx' : isWsChar x = false := by
          cases h2 : isWsChar x; rfl; exact absurd h2 hx
        rw [collapseAux_cons_nonws b x (y :: ys) hx'] at h
        rw [show (x :: collapseAux false (y :: ys)) = [x] ++ collapseAux false (y :: ys) from rfl] at h
        rw [getLast?_append_right [x] _ (hne false)] at h
        exact ih hlast' false h

/-- The head of a normalized string is not whitespace. -/
theorem normalizeSql_head_nonWs (x : List Char) (c : Char)
    (h : (normalizeSql x).head? = some c) : isWsChar c = false := by
  unfold normalizeSql at h
  exact collapseAux_head_nonWs (jsTrim x) (jsTrim_head_nonWs x) c h

/-- The last character of a normalized string is not whitespace. -/
theorem normalizeSql_getLast_nonWs (x : List Char) (c : Char)
    (h : (normalizeSql x).getLast? = some c) : isWsChar c = false := by
  unfold normalizeSql at h
  exact collapseAux_getLast_nonWs (jsTrim x) (jsTrim_getLast_nonWs x) false c h

/-- Splitting a semicolon-free string yields the single fragment. -/
theorem splitOnSemi_no_semi (l : List Char) (h : ∀ c ∈ l, c ≠ ';') :
    splitOnSemi l = [l] := by
  induction l with
  | nil => rfl
  | cons c cs ih =>
    unfold splitOnSemi
    rw [if_neg (h c (List.mem_cons_self c cs))]
    rw [ih (fun d hd => h d (List.mem_cons_of_mem c hd))]

/-- Collapsing distributes over an append whose left part ends in a
non-whitespace character. -/
theorem collapseAux_append (a l : List Char) (prev : Bool) (c : Char)
    (ha : a.getLast? = some c) (hc : isWsChar c = false) :
    collapseAux prev (a ++ l) = collapseAux prev a ++ collapseAux false l := by
  induction a generalizing prev with
  | nil => simp at ha
  | cons x a2 ih =>
    cases a2 with
    | nil =>
      simp only [List.getLast?_singleton, Option.some.injEq] at ha
      have hx : isWsChar x = false := by rw [ha]; exact hc
      rw [List.cons_append, List.nil_append]
      rw [collapseAux_cons_nonws prev x l hx, collapseAux_cons_nonws prev x [] hx]
      rfl
    | cons y a3 =>
      rw [List.getLast?_cons_cons] at ha
      by_cases hx : isWsChar x = true
      · cases prev with
        | true =>
          rw [List.cons_append, collapseAux_cons_ws_true x _ hx,
            collapseAux_cons_ws_true x _ hx]
          exact ih true ha
        | false =>
          rw [List.cons_append, collapseAux_cons_ws_false x _ hx,
            collapseAux_cons_ws_false x _ hx]
          rw [ih true ha]
          rfl
      · have hx' : isWsChar x = false := by
          cases h2 : isWsChar x; rfl; exact absurd h2 hx
        rw [List.cons_append, collapseAux_cons_nonws prev x _ hx',
          collapseAux_cons_nonws prev x _ hx']
        rw [ih false ha]
        rfl

/-- Every character produced by `natDigitsAux` is a decimal digit
(provided the accumulator only holds digits). -/
theorem natDigitsAux_all_digit (fuel n : Nat) (acc : List Char)
    (hacc : ∀ c ∈ acc, isDigitChar c = true) :
    ∀ c ∈ natDigitsAux fuel n acc, isDigitChar c = true := by
  induction fuel generalizing n acc with
  | zero => exact hacc
  | succ f ih =>
    intro c hc
    unfold natDigitsAux at hc
    have hdigit : ∀ m, isDigitChar (digitChar m) = true := by
      intro m
      match m with
      | 0 => decide
      | 1 => decide
      | 2 => decide
      | 3 => decide
      | 4 => decide
      | 5 => decide
      | 6 => decide
      | 7 => decide
      | 8 => decide
      | m + 9 => exact (by decide : isDigitChar '9' = true)
    by_cases hn : n < 10
    · rw [if_pos hn] at hc
      rcases List.mem_cons.mp hc with h | h
      · rw [h]; exact hdigit n
      · exact hacc c h
    · rw [if_neg hn] at hc
      refine ih (n / 10) (digitChar (n % 10) :: acc) ?_ c hc
      intro d hd
      rcases List.mem_cons.mp hd with h | h
      · rw [h]; exact hdigit (n % 10)
      · exact hacc d h

/-- Every character of a rendered natural number is a decimal digit. -/
theorem natDigits_all_digit (n : Nat) :
    ∀ c ∈ natDigits n, isDigitChar c = true :=
  natDigitsAux_all_digit (n + 1) n [] (by intro c hc; simp at hc)

/-- `natDigitsAux` with positive fuel or a non-empty accumulator is
non-empty. -/
theorem natDigitsAux_ne_nil (fuel n : Nat) (acc : List Char)
    (h : fuel ≠ 0 ∨ acc ≠ []) : natDigitsAux fuel n acc ≠ [] := by
  induction fuel generalizing n acc with
  | zero =>
    rcases h with h | h
    · exact absurd rfl h
    · exact h
  | succ f ih =>
    unfold natDigitsAux
    by_cases hn : n < 10
    · rw [if_pos hn]; simp
    · rw [if_neg hn]
      exact ih (n / 10) (digitChar (n % 10) :: acc) (Or.inr (by simp))

/-- A rendered natural number is non-empty. -/
theorem natDigits_ne_nil (n : Nat) : natDigits n ≠ [] :=
  natDigitsAux_ne_nil (n + 1) n [] (Or.inl (by omega))

/-- The accumulator of `natDigitsAux` is appended to the digits proper. -/
theorem natDigitsAux_append (fuel n : Nat) (acc : List Char) :
    natDigitsAux fuel n acc = natDigitsAux fuel n [] ++ acc := by
  induction fuel generalizing n acc with
  | zero => rfl
  | succ f ih =>
    unfold natDigitsAux
    by_cases hn : n < 10
    · rw [if_pos hn, if_pos hn]; rfl
    · rw [if_neg hn, if_neg hn]
      rw [ih (n / 10) (digitChar (n % 10) :: acc),
        ih (n / 10) [digitChar (n % 10)]]
      simp

/-- `natDigitsAux` is fuel-independent once the fuel exceeds the value. -/
theorem natDigitsAux_fuel (n : Nat) : ∀ (f g : Nat) (acc : List Char),
    n < f → n < g → natDigitsAux f n acc = natDigitsAux g n acc := by
  induction n using Nat.strong_induction_on with
  | _ n ih =>
    intro f g acc hf hg
    match f, g with
    | f' + 1, g' + 1 =>
      unfold natDigitsAux
      by_cases hn : n < 10
      · rw [if_pos hn, if_pos hn]
      · rw [if_neg hn, if_neg hn]
        have hdiv : n / 10 < n := Nat.div_lt_self (by omega) (by omega)
        exact ih (n / 10) hdiv f' g' _ (by omega) (by omega)

/-- Parsing after appending one digit multiplies by ten and adds its
value. -/
theorem parseDigits_append_last (a : List Char) (c : Char) :
    parseDigits (a ++ [c]) = parseDigits a * 10 + digitVal c := by
  unfold parseDigits
  rw [List.foldl_append]
  rfl

/-- The value of a digit character produced by `digitChar` below ten. -/
theorem digitVal_digitChar (k : Nat) (h : k < 10) :
    digitVal (digitChar k) = k := by
  interval_cases k <;> decide

/-- Round trip: parsing the decimal rendering of `n` gives back `n`. -/
theorem parseDigits_natDigits (n : Nat) : parseDigits (natDigits n) = n := by
  induction n using Nat.strong_induction_on with
  | _ n ih =>
    unfold natDigits natDigitsAux
    by_cases hn : n < 10
    · rw [if_pos hn]
      show parseDigits [digitChar n] = n
      unfold parseDigits
      simp [digitVal_digitChar n hn]
    · rw [if_neg hn]
      have hdiv : n / 10 < n := Nat.div_lt_self (by omega) (by omega)
      rw [natDigitsAux_append n (n / 10) [digitChar (n % 10)]]
      rw [natDigitsAux_fuel (n / 10) n (n / 10 + 1) [] (by omega) (by omega)]
      rw [parseDigits_append_last]
      have := ih (n / 10) hdiv
      unfold natDigits at this
      rw [this, digitVal_digitChar (n % 10) (by omega)]
      omega

/-- Decomposition of a case-insensitive prefix check over an append. -/
theorem matchesCI_append (kw x r : List Char) :
    matchesCI kw (x ++ r) =
      match kwRem kw x with
      | none => false
      | some (Sum.inl kw') => matchesCI kw' r
      | some (Sum.inr _) => true := by
  induction x generalizing kw with
  | nil =>
    cases kw with
    | nil => rfl
    | cons k ks => rfl
  | cons c cs ih =>
    cases kw with
    | nil => rfl
    | cons k ks =>
      rw [List.cons_append]
      show (decide (k.toUpper = c.toUpper) && matchesCI ks (cs ++ r)) = _
      by_cases hk : k.toUpper = c.toUpper
      · have hrem : kwRem (k :: ks) (c :: cs) = kwRem ks cs := by
          simp [kwRem, if_pos hk]
        rw [hrem, decide_eq_true hk, Bool.true_and]
        exact ih ks
      · have hrem : kwRem (k :: ks) (c :: cs) = none := by
          simp [kwRem, if_neg hk]
        rw [hrem, decide_eq_false hk, Bool.false_and]

/-- Decomposition of `matchKwCI` over an append. -/
theorem matchKwCI_append (kw x r : List Char) :
    matchKwCI kw (x ++ r) =
      match kwRem kw x with
      | none => none
      | some (Sum.inl kw') => matchKwCI kw' r
      | some (Sum.inr rest) => some (rest ++ r) := by
  induction x generalizing kw with
  | nil =>
    cases kw with
    | nil => rfl
    | cons k ks => rfl
  | cons c cs ih =>
    cases kw with
    | nil => rfl
    | cons k ks =>
      rw [List.cons_append]
      show (if k.toUpper = c.toUpper then matchKwCI ks (cs ++ r) else none) = _
      by_cases hk : k.toUpper = c.toUpper
      · simp only [kwRem, if_pos hk]
        exact ih ks
      · simp only [kwRem, if_neg hk]

/-- `matchKwCI` expressed through `kwRem`. -/
theorem matchKwCI_eq (kw x : List Char) :
    matchKwCI kw x =
      match kwRem kw x with
      | none => none
      | some (Sum.inl kw') => if kw' = [] then some [] else none
      | some (Sum.inr rest) => some rest := by
  induction x generalizing kw with
  | nil =>
    cases kw with
    | nil => rfl
    | cons k ks => rfl
  | cons c cs ih =>
    cases kw with
    | nil => rfl
    | cons k ks =>
      show (if k.toUpper = c.toUpper then matchKwCI ks cs else none) = _
      by_cases hk : k.toUpper = c.toUpper
      · simp only [kwRem, if_pos hk]
        exact ih ks
      · simp only [kwRem, if_neg hk]

/-- The keyword remainder of an exhausted-input match is a suffix of the
keyword. -/
theorem kwRem_suffix (kw x kw' : List Char)
    (h : kwRem kw x = some (Sum.inl kw')) : kw' <:+ kw := by
  induction x generalizing kw with
  | nil =>
    cases kw with
    | nil => simp [kwRem] at h; rw [h]
    | cons k ks => simp [kwRem] at h; rw [h]
  | cons c cs ih =>
    cases kw with
    | nil => simp [kwRem] at h
    | cons k ks =>
      simp only [kwRem] at h
      by_cases hk : k.toUpper = c.toUpper
      · rw [if_pos hk] at h
        exact (ih ks h).trans (List.suffix_cons k ks)
      · rw [if_neg hk] at h
        exact absurd h (by simp)

/-- A full keyword match leaves exactly the input beyond the keyword's
length. -/
theorem kwRem_inr_drop (kw x rest : List Char)
    (h : kwRem kw x = some (Sum.inr rest)) :
    rest = x.drop kw.length ∧ kw.length ≤ x.length := by
  induction x generalizing kw with
  | nil =>
    cases kw with
    | nil => simp [kwRem] at h
    | cons k ks => simp [kwRem] at h
  | cons c cs ih =>
    cases kw with
    | nil =>
      simp [kwRem] at h
      simp [← h]
    | cons k ks =>
      simp only [kwRem] at h
      by_cases hk : k.toUpper = c.toUpper
      · rw [if_pos hk] at h
        obtain ⟨h1, h2⟩ := ih ks h
        constructor
        · simpa using h1
        · simpa using h2
      · rw [if_neg hk] at h
        exact absurd h (by simp)

/-- A successful case-insensitive prefix check bounds the keyword
length. -/
theorem matchesCI_length (kw x : List Char) (h : matchesCI kw x = true) :
    kw.length ≤ x.length := by
  induction x generalizing kw with
  | nil =>
    cases kw with
    | nil => simp
    | cons k ks => simp [matchesCI] at h
  | cons c cs ih =>
    cases kw with
    | nil => simp
    | cons k ks =>
      simp only [matchesCI, Bool.and_eq_true] at h
      simpa using ih ks h.2

/-- A keyword matches itself (case-insensitively) followed by anything. -/
theorem matchKwCI_self_append (kw r : List Char) :
    matchKwCI kw (kw ++ r) = some r := by
  induction kw with
  | nil => rfl
  | cons k ks ih =>
    rw [List.cons_append]
    show (if k.toUpper = k.toUpper then matchKwCI ks (ks ++ r) else none) = some r
    rw [if_pos rfl, ih]

/-- A word-boundary scan finding nothing in `a` and nothing in `rest`
finds nothing in `a ++ ' ' :: rest`, for a non-empty all-uppercase keyword
(no occurrence can span the space). -/
theorem scanWord_append_space (kw rest : List Char)
    (hne : kw ≠ []) (hup : ∀ k ∈ kw, isUpperCh k = true) :
    ∀ (a : List Char) (prev : Bool),
      scanWord kw prev a = false → scanWord kw false rest = false →
      scanWord kw prev (a ++ ' ' :: rest) = false := by
  intro a
  induction a with
  | nil =>
    intro prev ha hb
    show ((!prev && matchesCI kw (' ' :: rest) && boundaryAfter kw (' ' :: rest)) ||
      scanWord kw (wordChar ' ') rest) = false
    have hm : matchesCI kw (' ' :: rest) = false := by
      cases kw with
      | nil => exact absurd rfl hne
      | cons k ks =>
        show (decide (k.toUpper = ' '.toUpper) && matchesCI ks rest) = false
        rw [decide_eq_false (isUpperCh_ne_space_toUpper k (hup k (List.mem_cons_self k ks))),
          Bool.false_and]
    rw [hm]
    rw [show wordChar ' ' = false by decide]
    simp [hb]
  | cons c a2 ih =>
    intro prev ha hb
    have hsplit : scanWord kw prev (c :: a2) =
        ((!prev && matchesCI kw (c :: a2) && boundaryAfter kw (c :: a2)) ||
          scanWord kw (wordChar c) a2) := rfl
    rw [hsplit] at ha
    have ha1 := (Bool.or_eq_false_iff.mp ha).1
    have ha2 := (Bool.or_eq_false_iff.mp ha).2
    rw [List.cons_append]
    show ((!prev && matchesCI kw (c :: (a2 ++ ' ' :: rest)) &&
        boundaryAfter kw (c :: (a2 ++ ' ' :: rest))) ||
      scanWord kw (wordChar c) (a2 ++ ' ' :: rest)) = false
    rw [ih (wordChar c) ha2 hb, Bool.or_false]
    rw [← List.cons_append]
    cases prev with
    | true => simp
    | false =>
      simp only [Bool.not_false, Bool.true_and] at ha1 ⊢
      cases hm : matchesCI kw (c :: a2) with
      | false =>
        have hmx : matchesCI kw ((c :: a2) ++ ' ' :: rest) = false := by
          rw [matchesCI_append kw (c :: a2) (' ' :: rest)]
          cases hrem : kwRem kw (c :: a2) with
          | none => rfl
          | some v =>
            cases v with
            | inl kw' =>
              have hm0 : matchesCI kw (c :: a2) = matchesCI kw' [] := by
                have := matchesCI_append kw (c :: a2) []
                rw [List.append_nil, hrem] at this
                exact this
              rw [hm] at hm0
              cases kw' with
              | nil => exact absurd hm0.symm (by simp [matchesCI])
              | cons k' ks' =>
                show matchesCI (k' :: ks') (' ' :: rest) = false
                show (decide (k'.toUpper = ' '.toUpper) && matchesCI ks' rest) = false
                have hk'mem : k' ∈ kw :=
                  (kwRem_suffix kw (c :: a2) (k' :: ks') hrem).subset
                    (List.mem_cons_self k' ks')
                rw [decide_eq_false (isUpperCh_ne_space_toUpper k' (hup k' hk'mem)),
                  Bool.false_and]
            | inr rest' =>
              exfalso
              have hm0 : matchesCI kw (c :: a2) = true := by
                have := matchesCI_append kw (c :: a2) []
                rw [List.append_nil, hrem] at this
                exact this
              rw [hm] at hm0
              exact absurd hm0 (by simp)
        rw [hmx, Bool.false_and]
      | true =>
        have hbd : boundaryAfter kw (c :: a2) = false := by
          rw [hm, Bool.true_and] at ha1
          exact ha1
        have hlen : kw.length ≤ (c :: a2).length := matchesCI_length kw (c :: a2) hm
        cases hd : (c :: a2).drop kw.length with
        | nil =>
          exfalso
          unfold boundaryAfter at hbd
          rw [hd] at hbd
          exact absurd hbd (by simp)
        | cons e es =>
          have hwe : wordChar e = true := by
            unfold boundaryAfter at hbd
            rw [hd] at hbd
            have hbd' : (!wordChar e) = false := hbd
            cases hwc : wordChar e
            · rw [hwc] at hbd'
              exact absurd hbd' (by simp)
            · rfl
          have hbx : boundaryAfter kw ((c :: a2) ++ ' ' :: rest) = false := by
            unfold boundaryAfter
            rw [List.drop_append_of_le_length hlen, hd]
            rw [List.cons_append]
            simp [hwe]
          rw [hbx, Bool.and_false]

/-- A word-boundary scan over an all-digit string never finds a non-empty
all-uppercase keyword. -/
theorem scanWord_digits (kw : List Char) (hne : kw ≠ [])
    (hup : ∀ k ∈ kw, isUpperCh k = true) :
    ∀ (ds : List Char), (∀ c ∈ ds, isDigitChar c = true) →
      ∀ prev, scanWord kw prev ds = false := by
  intro ds
  induction ds with
  | nil => intro _ prev; rfl
  | cons d ds2 ih =>
    intro hds prev
    show ((!prev && matchesCI kw (d :: ds2) && boundaryAfter kw (d :: ds2)) ||
      scanWord kw (wordChar d) ds2) = false
    have hm : matchesCI kw (d :: ds2) = false := by
      cases kw with
      | nil => exact absurd rfl hne
      | cons k ks =>
        show (decide (k.toUpper = d.toUpper) && matchesCI ks ds2) = false
        rw [decide_eq_false (isUpperCh_ne_digit_toUpper k d (hup k (List.mem_cons_self k ks))
            (hds d (List.mem_cons_self d ds2))), Bool.false_and]
    rw [hm, ih (fun c hc => hds c (List.mem_cons_of_mem d hc)) (wordChar d)]
    simp

/-- A keyword with no word-boundary occurrence in `ns` has none in
`ns ++ ' ' :: ("LIMIT" ++ ' ' :: digits)`. -/
theorem containsWordCI_append_limit (kw ns : List Char) (d : Nat)
    (hne : kw ≠ []) (hup : ∀ k ∈ kw, isUpperCh k = true)
    (hlim : scanWord kw false (strL "LIMIT") = false)
    (h : containsWordCI kw ns = false) :
    containsWordCI kw (ns ++ ' ' :: (strL "LIMIT" ++ ' ' :: natDigits d)) = false := by
  unfold containsWordCI at h ⊢
  refine scanWord_append_space kw (strL "LIMIT" ++ ' ' :: natDigits d) hne hup ns false h ?_
  refine scanWord_append_space kw (natDigits d) hne hup (strL "LIMIT") false hlim ?_
  exact scanWord_digits kw hne hup (natDigits d) (natDigits_all_digit d) false

/-- The keyword loop finding nothing on `ns` finds nothing after the
`LIMIT` injection. -/
theorem firstForbidden_append_limit (ns : List Char) (d : Nat)
    (h : firstForbidden ns = none) :
    firstForbidden (ns ++ ' ' :: (strL "LIMIT" ++ ' ' :: natDigits d)) = none := by
  unfold firstForbidden at h ⊢
  rw [List.find?_eq_none] at h ⊢
  intro kw hkw
  have hc := h kw hkw
  simp only [Bool.not_eq_true] at hc ⊢
  simp only [forbiddenKeywords, List.mem_cons, List.not_mem_nil, or_false] at hkw
  rcases hkw with rfl | rfl | rfl | rfl | rfl | rfl | rfl | rfl | rfl <;>
    exact containsWordCI_append_limit _ ns d (by decide) (by decide) (by decide) hc

/-- `takeWhile`/`dropWhile` on a list where every element satisfies the
predicate: the whole list is taken and nothing remains. -/
theorem takeWhile_all (p : Char → Bool) (l : List Char)
    (h : ∀ c ∈ l, p c = true) :
    l.takeWhile p = l ∧ l.dropWhile p = [] := by
  induction l with
  | nil => exact ⟨rfl, rfl⟩
  | cons c cs ih =>
    have hc := h c (List.mem_cons_self c cs)
    obtain ⟨h1, h2⟩ := ih (fun d hd => h d (List.mem_cons_of_mem c hd))
    constructor
    · rw [List.takeWhile_cons, if_pos hc, h1]
    · rw [List.dropWhile_cons, if_pos hc, h2]

/-- Relation between the emptiness of `dropWhile` and `takeWhile` taking
everything. -/
theorem takeWhile_length_eq_iff (p : Char → Bool) (l : List Char) :
    ((l.takeWhile p).length = l.length) ↔ l.dropWhile p = [] := by
  have hsum : (l.takeWhile p).length + (l.dropWhile p).length = l.length := by
    rw [← List.length_append, List.takeWhile_append_dropWhile]
  constructor
  · intro h
    have : (l.dropWhile p).length = 0 := by omega
    exact List.length_eq_zero.mp this
  · intro h
    rw [h] at hsum
    simpa using hsum

/-- The `\s+(\d+)` scan fails on the injected suffix (whitespace followed
by a letter). -/
theorem limitTail_injected (ds : List Char) :
    limitTail (' ' :: (strL "LIMIT" ++ ' ' :: ds)) = none := rfl

/-- If the `\s+(\d+)` scan fails on `rest`, it still fails after appending
the injected `' ' :: "LIMIT" ++ ' ' :: ds` suffix: the first character
after any whitespace run is unchanged, or becomes the letter `L`, never a
digit. -/
theorem limitTail_stable (rest ds : List Char) (hx : limitTail rest = none) :
    limitTail (rest ++ ' ' :: (strL "LIMIT" ++ ' ' :: ds)) = none := by
  unfold limitTail at hx ⊢
  cases hdw : rest.dropWhile isWsChar with
  | nil =>
    have htk : rest.takeWhile isWsChar = rest := by
      have := List.takeWhile_append_dropWhile (p := isWsChar) (l := rest)
      rw [hdw, List.append_nil] at this
      exact this
    have hdwx : (rest ++ ' ' :: (strL "LIMIT" ++ ' ' :: ds)).dropWhile isWsChar =
        strL "LIMIT" ++ ' ' :: ds := by
      rw [List.dropWhile_append, hdw]
      simp only [List.isEmpty_nil, if_true]
      rfl
    have htkx : ((rest ++ ' ' :: (strL "LIMIT" ++ ' ' :: ds)).takeWhile isWsChar).isEmpty = false := by
      rw [List.takeWhile_append, if_pos (by rw [htk])]
      have h2 : (' ' :: (strL "LIMIT" ++ ' ' :: ds)).takeWhile isWsChar = [' '] := rfl
      rw [h2]
      simp
    rw [if_neg (by simp [htkx])]
    rw [if_pos (by rw [hdwx]; rfl)]
  | cons e r2 =>
    have hne2 : rest.dropWhile isWsChar ≠ [] := by rw [hdw]; simp
    have hlen : ¬ (rest.takeWhile isWsChar).length = rest.length := by
      intro hc
      exact hne2 ((takeWhile_length_eq_iff isWsChar rest).mp hc)
    have hdwx : (rest ++ ' ' :: (strL "LIMIT" ++ ' ' :: ds)).dropWhile isWsChar =
        (e :: r2) ++ ' ' :: (strL "LIMIT" ++ ' ' :: ds) := by
      rw [List.dropWhile_append, if_neg (by rw [hdw]; simp), hdw]
    have htkx : (rest ++ ' ' :: (strL "LIMIT" ++ ' ' :: ds)).takeWhile isWsChar =
        rest.takeWhile isWsChar := by
      rw [List.takeWhile_append, if_neg hlen]
    rw [htkx]
    by_cases hT : (rest.takeWhile isWsChar).isEmpty = true
    · rw [if_pos hT]
    · rw [if_neg hT]
      rw [if_neg hT] at hx
      rw [hdw] at hx
      rw [hdwx]
      by_cases hd : isDigitChar e = true
      · exfalso
        rw [List.takeWhile_cons, if_pos hd] at hx
        simp at hx
      · have hde : isDigitChar e = false := by
          cases h2 : isDigitChar e
          · rfl
          · exact absurd h2 hd
        have hts : (e :: (r2 ++ ' ' :: (strL "LIMIT" ++ ' ' :: ds))).takeWhile isDigitChar = [] := by
          rw [List.takeWhile_cons, if_neg (by simp [hde])]
        rw [List.cons_append, hts]
        simp

/-- If the limit regex does not match at the start of `x`, it still does
not match there after the injected suffix is appended. -/
theorem matchLimitAt_stable (x ds : List Char) (hx : matchLimitAt x = none) :
    matchLimitAt (x ++ ' ' :: (strL "LIMIT" ++ ' ' :: ds)) = none := by
  unfold matchLimitAt at hx ⊢
  rw [matchKwCI_append (strL "LIMIT") x (' ' :: (strL "LIMIT" ++ ' ' :: ds))]
  rw [matchKwCI_eq (strL "LIMIT") x] at hx
  cases hrem : kwRem (strL "LIMIT") x with
  | none => rfl
  | some v =>
    cases v with
    | inl kw' =>
      by_cases hk : kw' = []
      · subst hk
        show limitTail (' ' :: (strL "LIMIT" ++ ' ' :: ds)) = none
        exact limitTail_injected ds
      · cases kw' with
        | nil => exact absurd rfl hk
        | cons k' ks' =>
          have hk'mem : k' ∈ strL "LIMIT" :=
            (kwRem_suffix (strL "LIMIT") x (k' :: ks') hrem).subset
              (List.mem_cons_self k' ks')
          have hkne : ¬ (k'.toUpper = ' '.toUpper) := by
            simp only [strL] at hk'mem
            rcases List.mem_cons.mp hk'mem with rfl | h2
            · decide
            rcases List.mem_cons.mp h2 with rfl | h3
            · decide
            rcases List.mem_cons.mp h3 with rfl | h4
            · decide
            rcases List.mem_cons.mp h4 with rfl | h5
            · decide
            rcases List.mem_cons.mp h5 with rfl | h6
            · decide
            · exact absurd h6 (by simp)
          show (match matchKwCI (k' :: ks') (' ' :: (strL "LIMIT" ++ ' ' :: ds)) with
            | none => none
            | some r1 => limitTail r1) = none
          have : matchKwCI (k' :: ks') (' ' :: (strL "LIMIT" ++ ' ' :: ds)) = none := by
            show (if k'.toUpper = ' '.toUpper then
              matchKwCI ks' (strL "LIMIT" ++ ' ' :: ds) else none) = none
            rw [if_neg hkne]
          rw [this]
    | inr rest =>
      rw [hrem] at hx
      exact limitTail_stable rest ds hx

/-- A successful head match determines `findLimit`. -/
theorem findLimit_of_matchLimitAt (s ds rest : List Char)
    (h : matchLimitAt s = some (ds, rest)) :
    findLimit s = some ([], ds, rest) := by
  cases s with
  | nil =>
    exfalso
    unfold matchLimitAt at h
    simp [matchKwCI, strL] at h
  | cons c cs =>
    unfold findLimit
    rw [h]

/-- A failed head match pushes `findLimit` to the tail. -/
theorem findLimit_cons_none (c : Char) (cs : List Char)
    (h : matchLimitAt (c :: cs) = none) :
    findLimit (c :: cs) =
      match findLimit cs with
      | none => none
      | some (p, ds, rest) => some (c :: p, ds, rest) := by
  have he : findLimit (c :: cs) =
      (match matchLimitAt (c :: cs) with
      | some (ds, rest) => some ([], ds, rest)
      | none =>
        match findLimit cs with
        | none => none
        | some (p, ds, rest) => some (c :: p, ds, rest)) := rfl
  rw [he, h]

/-- When the input has no limit match, the injected ` LIMIT <digits>`
suffix becomes the first (and only) match of the re-validated string. -/
theorem findLimit_append_limit (ns ds : List Char)
    (hns : findLimit ns = none)
    (hds : ∀ c ∈ ds, isDigitChar c = true) (hdne : ds ≠ []) :
    findLimit (ns ++ ' ' :: (strL "LIMIT" ++ ' ' :: ds)) =
      some (ns ++ [' '], ds, []) := by
  induction ns with
  | nil =>
    rw [List.nil_append]
    have h1 : matchLimitAt (' ' :: (strL "LIMIT" ++ ' ' :: ds)) = none := by
      unfold matchLimitAt
      have : matchKwCI (strL "LIMIT") (' ' :: (strL "LIMIT" ++ ' ' :: ds)) = none := rfl
      rw [this]
    rw [findLimit_cons_none ' ' _ h1]
    have h2 : matchLimitAt (strL "LIMIT" ++ ' ' :: ds) = some (ds, []) := by
      unfold matchLimitAt
      rw [matchKwCI_self_append]
      show limitTail (' ' :: ds) = some (ds, [])
      unfold limitTail
      have e2 : ds.takeWhile isWsChar = [] := by
        cases ds with
        | nil => rfl
        | cons d0 ds0 =>
          rw [List.takeWhile_cons,
            if_neg (by simp [isDigitChar_not_ws d0 (hds d0 (List.mem_cons_self d0 ds0))])]
      have e1 : (' ' :: ds).takeWhile isWsChar = [' '] := by
        rw [List.takeWhile_cons, if_pos (by decide), e2]
      have e3 : (' ' :: ds).dropWhile isWsChar = ds := by
        rw [List.dropWhile_cons, if_pos (by decide)]
        cases ds with
        | nil => rfl
        | cons d0 ds0 =>
          rw [List.dropWhile_cons,
            if_neg (by simp [isDigitChar_not_ws d0 (hds d0 (List.mem_cons_self d0 ds0))])]
      obtain ⟨e4, e5⟩ := takeWhile_all isDigitChar ds hds
      rw [e1, e3, e4, e5]
      rw [if_neg (by simp), if_neg (by simp [hdne])]
    rw [findLimit_of_matchLimitAt _ ds [] h2]
    rfl
  | cons c cs ih =>
    have hma : matchLimitAt (c :: cs) = none := by
      cases h : matchLimitAt (c :: cs) with
      | none => rfl
      | some v =>
        exfalso
        obtain ⟨ds', rest'⟩ := v
        unfold findLimit at hns
        rw [h] at hns
        simp at hns
    have hfc : findLimit cs = none := by
      cases h : findLimit cs with
      | none => rfl
      | some v =>
        exfalso
        obtain ⟨p, ds', rest'⟩ := v
        unfold findLimit at hns
        rw [hma, h] at hns
        simp at hns
    have hstab := matchLimitAt_stable (c :: cs) ds hma
    rw [List.cons_append] at hstab
    rw [List.cons_append, findLimit_cons_none c _ hstab, ih hfc]
    rfl

/-- Upper-casing is the identity on an all-digit string. -/
theorem map_toUpper_digits (l : List Char) (h : ∀ c ∈ l, isDigitChar c = true) :
    l.map Char.toUpper = l := by
  induction l with
  | nil => rfl
  | cons c cs ih =>
    rw [List.map_cons, toUpper_of_isDigitChar c (h c (List.mem_cons_self c cs)),
      ih (fun x hx => h x (List.mem_cons_of_mem c hx))]

/-- The injected ` LIMIT <digits>` suffix contains no semicolon, so a
semicolon-free normalized input stays single-statement after injection. -/
theorem statementsOf_injected (ns : List Char) (d : Nat)
    (hsemi : ∀ c ∈ ns, c ≠ ';') :
    ¬ 1 < (statementsOf (ns ++ ' ' :: (strL "LIMIT" ++ ' ' :: natDigits d))).length := by
  unfold statementsOf
  rw [splitOnSemi_no_semi]
  · rw [List.filter_cons]
    split
    · simp
    · simp
  · intro c hc
    rcases List.mem_append.mp hc with h | h
    · exact hsemi c h
    · rcases List.mem_cons.mp h with rfl | h2
      · decide
      rcases List.mem_append.mp h2 with h3 | h4
      · simp only [strL] at h3
        rcases List.mem_cons.mp h3 with rfl | h3
        · decide
        rcases List.mem_cons.mp h3 with rfl | h3
        · decide
        rcases List.mem_cons.mp h3 with rfl | h3
        · decide
        rcases List.mem_cons.mp h3 with rfl | h3
        · decide
        rcases List.mem_cons.mp h3 with rfl | h3
        · decide
        · exact absurd h3 (by simp)
      rcases List.mem_cons.mp h4 with rfl | h5
      · decide
      · exact isDigitChar_ne_semi c (natDigits_all_digit d c h5)

/-- A normalized input starting with SELECT still starts with SELECT after
the ` LIMIT <digits>` injection. -/
theorem startsWithSelect_injected (ns : List Char) (d : Nat)
    (hsel : startsWithSelect ns = true) :
    startsWithSelect (ns ++ ' ' :: (strL "LIMIT" ++ ' ' :: natDigits d)) = true := by
  unfold startsWithSelect at hsel ⊢
  rw [List.isPrefixOf_iff_prefix] at hsel ⊢
  rw [List.map_append]
  have hmap : (' ' :: (strL "LIMIT" ++ ' ' :: natDigits d)).map Char.toUpper =
      ' ' :: (strL "LIMIT" ++ ' ' :: natDigits d) := by
    rw [List.map_cons, List.map_append, List.map_cons]
    rw [map_toUpper_digits (natDigits d) (natDigits_all_digit d)]
    rfl
  rw [hmap]
  have hB : (ns.map Char.toUpper).dropWhile isWsChar ≠ [] := by
    intro hB0
    have hjt : jsTrim (ns.map Char.toUpper) = [] := by
      unfold jsTrim
      rw [hB0]
      rfl
    rw [hjt] at hsel
    obtain ⟨t, ht⟩ := hsel
    simp [strL] at ht
  -- notation: A is the upper-cased ns, T the injected suffix, B = dropWhile A
  have hdwA : (ns.map Char.toUpper ++ ' ' :: (strL "LIMIT" ++ ' ' :: natDigits d)).dropWhile isWsChar =
      (ns.map Char.toUpper).dropWhile isWsChar ++ ' ' :: (strL "LIMIT" ++ ' ' :: natDigits d) := by
    rw [List.dropWhile_append, if_neg (by simp [hB])]
  have hTlast : ∀ c, (' ' :: (strL "LIMIT" ++ ' ' :: natDigits d)).getLast? = some c →
      isWsChar c = false := by
    intro c hc
    have hsh : (' ' :: (strL "LIMIT" ++ ' ' :: natDigits d)) =
        ((' ' :: strL "LIMIT") ++ [' ']) ++ natDigits d := by simp
    rw [hsh, getLast?_append_right _ _ (natDigits_ne_nil d)] at hc
    exact isDigitChar_not_ws c (natDigits_all_digit d c (mem_of_getLast?_eq _ c hc))
  have hjtx : jsTrim (ns.map Char.toUpper ++ ' ' :: (strL "LIMIT" ++ ' ' :: natDigits d)) =
      (ns.map Char.toUpper).dropWhile isWsChar ++ ' ' :: (strL "LIMIT" ++ ' ' :: natDigits d) := by
    unfold jsTrim
    rw [hdwA]
    rw [dropWhile_eq_self_of_head isWsChar _ ?hh]
    · exact List.reverse_reverse _
    case hh =>
      intro c hc
      rw [List.reverse_append] at hc
      rw [List.head?_append_of_ne_nil _ (by simp) ] at hc
      rw [List.head?_reverse] at hc
      exact hTlast c hc
  rw [hjtx]
  -- the trimmed upper-cased ns is a prefix of its dropWhile
  have hC : jsTrim (ns.map Char.toUpper) <+:
      (ns.map Char.toUpper).dropWhile isWsChar := by
    unfold jsTrim
    have hsfx := List.dropWhile_suffix
      (l := ((ns.map Char.toUpper).dropWhile isWsChar).reverse) isWsChar
    have := List.reverse_prefix.mpr hsfx
    rwa [List.reverse_reverse] at this
  exact hsel.trans (hC.trans (List.prefix_append _ _))

/-- The normalized form of an accepted, non-empty normalized input with
the injected ` LIMIT <digits>` suffix is itself (normalization is stable
under the injection). -/
theorem normalizeSql_injected (sql : List Char) (d : Nat)
    (hne : normalizeSql sql ≠ []) :
    normalizeSql (normalizeSql sql ++ ' ' :: (strL "LIMIT" ++ ' ' :: natDigits d)) =
      normalizeSql sql ++ ' ' :: (strL "LIMIT" ++ ' ' :: natDigits d) := by
  have hTlast : ∀ c, (' ' :: (strL "LIMIT" ++ ' ' :: natDigits d)).getLast? = some c →
      isWsChar c = false := by
    intro c hc
    have hsh : (' ' :: (strL "LIMIT" ++ ' ' :: natDigits d)) =
        ((' ' :: strL "LIMIT") ++ [' ']) ++ natDigits d := by simp
    rw [hsh, getLast?_append_right _ _ (natDigits_ne_nil d)] at hc
    exact isDigitChar_not_ws c (natDigits_all_digit d c (mem_of_getLast?_eq _ c hc))
  have hlastns : ∃ c, (normalizeSql sql).getLast? = some c := by
    cases hg : (normalizeSql sql).getLast? with
    | none => exact absurd (List.getLast?_eq_none_iff.mp hg) hne
    | some g => exact ⟨g, rfl⟩
  obtain ⟨g, hg⟩ := hlastns
  have hgnws : isWsChar g = false := normalizeSql_getLast_nonWs sql g hg
  show collapseAux false
      (jsTrim (normalizeSql sql ++ ' ' :: (strL "LIMIT" ++ ' ' :: natDigits d))) =
    normalizeSql sql ++ ' ' :: (strL "LIMIT" ++ ' ' :: natDigits d)
  rw [jsTrim_eq_self]
  · -- collapse distributes and is the identity on both parts
    rw [collapseAux_append (normalizeSql sql) _ false g hg hgnws]
    have hid : collapseAux false (normalizeSql sql) = normalizeSql sql :=
      collapseAux_idem (jsTrim sql) false
    rw [hid]
    have htail : collapseAux false (' ' :: (strL "LIMIT" ++ ' ' :: natDigits d)) =
        ' ' :: (strL "LIMIT" ++ ' ' :: natDigits d) := by
      rw [collapseAux_cons_ws_false ' ' _ (by decide)]
      rw [show strL "LIMIT" ++ ' ' :: natDigits d =
        'L' :: 'I' :: 'M' :: 'I' :: 'T' :: ' ' :: natDigits d from rfl]
      rw [collapseAux_cons_nonws true 'L' _ (by decide)]
      rw [collapseAux_cons_nonws false 'I' _ (by decide)]
      rw [collapseAux_cons_nonws false 'M' _ (by decide)]
      rw [collapseAux_cons_nonws false 'I' _ (by decide)]
      rw [collapseAux_cons_nonws false 'T' _ (by decide)]
      rw [collapseAux_cons_ws_false ' ' _ (by decide)]
      rw [collapseAux_nonWs (natDigits d)
        (fun c hc => isDigitChar_not_ws c (natDigits_all_digit d c hc)) true]
    rw [htail]
  · intro c hc
    rw [List.head?_append_of_ne_nil _ hne] at hc
    exact normalizeSql_head_nonWs sql c hc
  · intro c hc
    rw [getLast?_append_right _ _ (by simp)] at hc
    exact hTlast c hc

/-- An accepted input passed every guard: it is single-statement, and
under a read-only policy the keyword loop found nothing and the normalized
input starts with SELECT. -/
theorem validateSQL_valid_guards (sql : List Char) (config : SQLValidationConfig)
    (hv : (validateSQL sql config).isValid = true) :
    ¬ 1 < (statementsOf (normalizeSql sql)).length ∧
      (config.readOnly?.getD true = true →
        firstForbidden (normalizeSql sql) = none ∧
          startsWithSelect (normalizeSql sql) = true) := by
  by_cases h1 : 1 < (statementsOf (normalizeSql sql)).length
  · exfalso
    simp only [validateSQL, h1, if_true] at hv
    simp at hv
  · refine ⟨h1, ?_⟩
    intro hro
    cases hk : firstForbidden (normalizeSql sql) with
    | some kw =>
      exfalso
      have hk2 : (if config.readOnly?.getD true = true then
          firstForbidden (normalizeSql sql) else none) = some kw := by
        rw [if_pos hro, hk]
      simp only [validateSQL, h1, hk2, if_false] at hv
      simp at hv
    | none =>
      refine ⟨rfl, ?_⟩
      cases hs : startsWithSelect (normalizeSql sql) with
      | true => rfl
      | false =>
        exfalso
        have hk2 : (if config.readOnly?.getD true = true then
            firstForbidden (normalizeSql sql) else none) = none := by
          rw [if_pos hro, hk]
        have h2 : (config.readOnly?.getD true && !startsWithSelect (normalizeSql sql)) = true := by
          rw [hro, hs]
          rfl
        simp only [validateSQL, h1, hk2, h2, if_false, if_true] at hv
        simp at hv

/-- Counterexample for C4: `"SELECT 1;"` is accepted with no existing
LIMIT and `sanitizedSql = "SELECT 1; LIMIT 50"`, but re-validating that
output with the same (default, `defaultLimit ≤ maxLimit`) policy rejects
it as a multi-statement query instead of returning it unchanged. -/
theorem validateSQL_limit_idempotent_cex :
    findLimit (normalizeSql (strL "SELECT 1;")) = none ∧
      (validateSQL (strL "SELECT 1;") {}).sanitizedSql =
        some (strL "SELECT 1; LIMIT 50") ∧
      validateSQL (strL "SELECT 1; LIMIT 50") {} =
        { isValid := false, error := some multiStatementError,
          sanitizedSql := none } := by
  refine ⟨by decide, by decide, by decide⟩

/-- C4 (amended): for every accepted input whose normalized form has no
`LIMIT <integer>` match, is non-empty and semicolon-free, under a policy
with no table allow-list and `defaultLimit ≤ maxLimit`, `validateSQL`
appends exactly one ` LIMIT <defaultLimit>`, and re-validating the
returned `sanitizedSql` under the same policy accepts it and returns the
very same `sanitizedSql` (no second LIMIT, injected limit unchanged). -/
theorem validateSQL_limit_idempotent (sql : List Char) (config : SQLValidationConfig)
    (hv : (validateSQL sql config).isValid = true)
    (hnl : findLimit (normalizeSql sql) = none)
    (hne : normalizeSql sql ≠ [])
    (hsemi : ∀ c ∈ normalizeSql sql, c ≠ ';')
    (htab : config.allowedTables?.getD [] = [])
    (hdm : config.defaultLimit?.getD 50 ≤ config.maxLimit?.getD 500) :
    (validateSQL sql config).sanitizedSql =
      some (normalizeSql sql ++ strL " LIMIT " ++
        natDigits (config.defaultLimit?.getD 50)) ∧
      validateSQL (normalizeSql sql ++ strL " LIMIT " ++
          natDigits (config.defaultLimit?.getD 50)) config =
        { isValid := true, error := none,
          sanitizedSql := some (normalizeSql sql ++ strL " LIMIT " ++
            natDigits (config.defaultLimit?.getD 50)) } := by
  have hform : normalizeSql sql ++ strL " LIMIT " ++
      natDigits (config.defaultLimit?.getD 50) =
      normalizeSql sql ++ ' ' :: (strL "LIMIT" ++ ' ' ::
        natDigits (config.defaultLimit?.getD 50)) := by
    rw [List.append_assoc]
    rfl
  have hguards := validateSQL_valid_guards sql config hv
  constructor
  · rw [validateSQL_valid_sanitized sql config hv]
    unfold enforceLimit
    rw [hnl]
  · rw [hform]
    have hns1 := normalizeSql_injected sql (config.defaultLimit?.getD 50) hne
    have hstmt : ¬ 1 < (statementsOf (normalizeSql (normalizeSql sql ++ ' ' ::
        (strL "LIMIT" ++ ' ' :: natDigits (config.defaultLimit?.getD 50))))).length := by
      rw [hns1]
      exact statementsOf_injected (normalizeSql sql) (config.defaultLimit?.getD 50) hsemi
    have hkw : (if config.readOnly?.getD true = true then
        firstForbidden (normalizeSql (normalizeSql sql ++ ' ' ::
          (strL "LIMIT" ++ ' ' :: natDigits (config.defaultLimit?.getD 50))))
        else none) = none := by
      cases hro : config.readOnly?.getD true with
      | false => rw [if_neg (by simp)]
      | true =>
        rw [if_pos rfl, hns1]
        exact firstForbidden_append_limit (normalizeSql sql)
          (config.defaultLimit?.getD 50) (hguards.2 hro).1
    have hsel2 : (config.readOnly?.getD true && !startsWithSelect
        (normalizeSql (normalizeSql sql ++ ' ' ::
          (strL "LIMIT" ++ ' ' :: natDigits (config.defaultLimit?.getD 50))))) = false := by
      cases hro : config.readOnly?.getD true with
      | false => rfl
      | true =>
        rw [hns1, startsWithSelect_injected (normalizeSql sql)
          (config.defaultLimit?.getD 50) (hguards.2 hro).2]
        rfl
    have hfl2 : findLimit (normalizeSql (normalizeSql sql ++ ' ' ::
        (strL "LIMIT" ++ ' ' :: natDigits (config.defaultLimit?.getD 50)))) =
        some (normalizeSql sql ++ [' '],
          natDigits (config.defaultLimit?.getD 50), []) := by
      rw [hns1]
      exact findLimit_append_limit (normalizeSql sql)
        (natDigits (config.defaultLimit?.getD 50)) hnl
        (natDigits_all_digit (config.defaultLimit?.getD 50))
        (natDigits_ne_nil (config.defaultLimit?.getD 50))
    simp only [validateSQL, hstmt, hkw, hsel2, htab, if_false,
      List.isEmpty_nil, ite_true, ite_false, Bool.false_eq_true]
    unfold enforceLimit
    rw [hfl2]
    dsimp only
    rw [parseDigits_natDigits]
    rw [if_neg (by omega), hns1]

/-- Witness for C4: `"SELECT * FROM issues"` (no LIMIT, non-empty,
semicolon-free, default policy with `50 ≤ 500`) gets ` LIMIT 50` appended,
and re-validating `"SELECT * FROM issues LIMIT 50"` returns it
unchanged. -/
theorem validateSQL_limit_idempotent_witness :
    (validateSQL (strL "SELECT * FROM issues") {}).sanitizedSql =
      some (strL "SELECT * FROM issues LIMIT 50") ∧
      validateSQL (strL "SELECT * FROM issues LIMIT 50") {} =
        { isValid := true, error := none,
          sanitizedSql := some (strL "SELECT * FROM issues LIMIT 50") } := by
  have h := validateSQL_limit_idempotent (strL "SELECT * FROM issues") {}
    (by decide) (by decide) (by decide) (by decide) (by decide) (by decide)
  have harg : normalizeSql (strL "SELECT * FROM issues") ++ strL " LIMIT " ++
      natDigits (({} : SQLValidationConfig).defaultLimit?.getD 50) =
      strL "SELECT * FROM issues LIMIT 50" := by decide
  rw [harg] at h
  exact h
